import Mathlib

/-!
Verification of the lead-tracking core (`src/backend/database.py` and
`src/backend/models.py`): the data model, the update/history engine,
creation, deletion, statistics and JSON persistence round-trip.

All definitions are shallow embeddings of the Python source: Python lists
become `List`, `datetime` becomes an explicit record of calendar fields,
`None`-able values become `Option`, and the implicit file state threaded by
the mutating operations is made explicit (each operation returns the
collection it persists).
-/

/-- `LeadStatus` enum from `models.py`. -/
inductive LeadStatus
  | not_contacted
  | contacted
  | responded
deriving DecidableEq, Repr

/-- `.value` of a `LeadStatus` member (the string stored on disk). -/
def statusValue : LeadStatus → String
  | .not_contacted => "not_contacted"
  | .contacted => "contacted"
  | .responded => "responded"

/-- `ActivityType` enum from `models.py`. -/
inductive ActivityType
  | created
  | updated
  | status_changed
  | note_added
  | tag_added
  | tag_removed
deriving DecidableEq, Repr

/-- `.value` of an `ActivityType` member (the string stored on disk). -/
def activityTypeValue : ActivityType → String
  | .created => "created"
  | .updated => "updated"
  | .status_changed => "status_changed"
  | .note_added => "note_added"
  | .tag_added => "tag_added"
  | .tag_removed => "tag_removed"

/-- A Python `datetime` value, at microsecond precision (no timezone is ever
attached by the code: `datetime.now()` is naive). -/
structure DateTime where
  year : Nat
  month : Nat
  day : Nat
  hour : Nat
  minute : Nat
  second : Nat
  microsecond : Nat
deriving DecidableEq, Repr

/-- The ranges `datetime` enforces on its fields. -/
def DateTime.Valid (dt : DateTime) : Prop :=
  1 ≤ dt.year ∧ dt.year ≤ 9999 ∧ 1 ≤ dt.month ∧ dt.month ≤ 12 ∧
  1 ≤ dt.day ∧ dt.day ≤ 31 ∧ dt.hour ≤ 23 ∧ dt.minute ≤ 59 ∧
  dt.second ≤ 59 ∧ dt.microsecond ≤ 999999

instance (dt : DateTime) : Decidable dt.Valid := by
  unfold DateTime.Valid; infer_instance

/-- `Activity` model from `models.py`. -/
structure Activity where
  timestamp : DateTime
  type : ActivityType
  description : String
  details : Option String
deriving DecidableEq, Repr

/-- `LeadBase` from `models.py`: the client-settable fields.  `LeadCreate`
and `LeadUpdate` are aliases of it in the source. -/
structure LeadBase where
  company_name : String
  contact_name : String
  title : String
  email : String
  linkedin_url : String
  status : LeadStatus
  notes : String
  tags : List String
deriving DecidableEq, Repr

/-- `LeadUpdate` is `LeadBase` with no extra fields (`models.py`). -/
abbrev LeadUpdate := LeadBase

/-- `LeadCreate` is `LeadBase` with no extra fields (`models.py`). -/
abbrev LeadCreate := LeadBase

/-- `Lead` from `models.py`: `LeadBase` plus the system-generated fields. -/
structure Lead extends LeadBase where
  id : String
  date_added : DateTime
  last_contacted : Option DateTime
  activity_history : List Activity
deriving DecidableEq, Repr

/-- The membership test `activity.type in [STATUS_CHANGED, NOTE_ADDED,
TAG_ADDED, TAG_REMOVED]` from `update_lead` (database.py line 307). -/
def isTrackedType : ActivityType → Bool
  | .status_changed => true
  | .note_added => true
  | .tag_added => true
  | .tag_removed => true
  | _ => false

/-- The guard `activities[-1:] and activities[-1].type in [...]` of the
generic-update fallback (database.py line 307): the list is non-empty and
its last element has a tracked type. -/
def lastIsTracked (acts : List Activity) : Bool :=
  match acts.getLast? with
  | some a => isTrackedType a.type
  | none => false

/-- Activities appended by step 1 of the diff (status change). -/
def statusActs (lead : Lead) (lead_data : LeadUpdate) (now : DateTime) : List Activity :=
  if lead_data.status ≠ lead.status then
    [{ timestamp := now, type := .status_changed,
       description := "Status changed from " ++ statusValue lead.status ++
         " to " ++ statusValue lead_data.status,
       details := none }]
  else []

/-- Activities appended by step 2 of the diff (notes change). -/
def noteActs (lead : Lead) (lead_data : LeadUpdate) (now : DateTime) : List Activity :=
  if lead_data.notes ≠ "" ∧ lead_data.notes ≠ lead.notes then
    [{ timestamp := now, type := .note_added,
       description := "Note updated", details := some (lead_data.notes.take 100) }]
  else []

/-- Activities appended by step 3a of the diff (tags gained). -/
def tagAddedActs (lead : Lead) (lead_data : LeadUpdate) (now : DateTime) : List Activity :=
  (lead_data.tags.dedup.filter (fun t => t ∉ lead.tags)).map (fun t =>
    { timestamp := now, type := .tag_added,
      description := "Tag added: " ++ t, details := none })

/-- Activities appended by step 3b of the diff (tags lost). -/
def tagRemovedActs (lead : Lead) (lead_data : LeadUpdate) (now : DateTime) : List Activity :=
  (lead.tags.dedup.filter (fun t => t ∉ lead_data.tags)).map (fun t =>
    { timestamp := now, type := .tag_removed,
      description := "Tag removed: " ++ t, details := none })

/-- Activities appended by steps 1–3 of the diff. -/
def stepActs (lead : Lead) (lead_data : LeadUpdate) (now : DateTime) : List Activity :=
  statusActs lead lead_data now ++ noteActs lead lead_data now ++
  tagAddedActs lead lead_data now ++ tagRemovedActs lead lead_data now

/-- The body of `update_lead` once the matching lead is found
(database.py lines 252–322): starting from a copy of the old history the
code appends, in order, the status-change entry (when the status differs),
the note entry (when the notes are non-empty and differ), one `tag_added`
entry per gained tag, one `tag_removed` entry per lost tag, and finally a
generic `updated` entry unless the accumulated list ends in a tracked
entry; `last_contacted` is set to `now` only on a status change landing on
`contacted`/`responded`.  `now` stands for the single `datetime.now()`
call; each conditional append is rendered as appending the corresponding
(possibly empty) activity list. -/
def applyUpdate (lead : Lead) (lead_data : LeadUpdate) (now : DateTime) : Lead :=
  let activities := lead.activity_history
  let activities := activities ++ statusActs lead lead_data now
  let last_contacted :=
    if lead_data.status ≠ lead.status then
      if lead_data.status = .contacted ∨ lead_data.status = .responded then
        some now
      else lead.last_contacted
    else lead.last_contacted
  let activities := activities ++ noteActs lead lead_data now
  let activities := activities ++ tagAddedActs lead lead_data now
  let activities := activities ++ tagRemovedActs lead lead_data now
  let activities :=
    if lastIsTracked activities then activities
    else
      activities ++
        [{ timestamp := now, type := .updated,
           description := "Lead information updated", details := none }]
  { toLeadBase := lead_data,
    id := lead.id,
    date_added := lead.date_added,
    last_contacted := last_contacted,
    activity_history := activities }

/-- The generic `updated` fallback, guarded on the last element of the
combined old-history-plus-new-activities list, exactly as in the code. -/
def fallbackActs (lead : Lead) (lead_data : LeadUpdate) (now : DateTime) : List Activity :=
  if lastIsTracked (lead.activity_history ++ stepActs lead lead_data now) then []
  else [{ timestamp := now, type := .updated,
          description := "Lead information updated", details := none }]

/-- All activities one call to `update_lead` appends for this lead. -/
def appendedActs (lead : Lead) (lead_data : LeadUpdate) (now : DateTime) : List Activity :=
  stepActs lead lead_data now ++ fallbackActs lead lead_data now

/-- The history produced by `applyUpdate` is the old history followed by
exactly the appended activities. -/
theorem applyUpdate_history (lead : Lead) (lead_data : LeadUpdate) (now : DateTime) :
    (applyUpdate lead lead_data now).activity_history =
      lead.activity_history ++ appendedActs lead lead_data now := by
  unfold applyUpdate appendedActs fallbackActs
  simp only [stepActs, List.append_assoc]
  split <;> simp

set_option maxRecDepth 4000 in
/-- Concrete evaluation of `applyUpdate` against a hand-traced run of the
Python code: status change, note change and a tag swap together. -/
theorem applyUpdate_concrete_eval :
    applyUpdate
      { company_name := "Acme", contact_name := "Jane", title := "CEO",
        email := "j@a.com", linkedin_url := "", status := .not_contacted,
        notes := "", tags := ["a", "b"], id := "id0",
        date_added := ⟨2024, 1, 2, 3, 4, 5, 0⟩, last_contacted := none,
        activity_history := [⟨⟨2024, 1, 2, 3, 4, 5, 0⟩, .created, "Lead created for Jane", none⟩] }
      { company_name := "Acme", contact_name := "Jane", title := "CEO",
        email := "j@a.com", linkedin_url := "", status := .contacted,
        notes := "hello", tags := ["b", "c"] }
      ⟨2024, 2, 2, 3, 4, 5, 0⟩
    = { company_name := "Acme", contact_name := "Jane", title := "CEO",
        email := "j@a.com", linkedin_url := "", status := .contacted,
        notes := "hello", tags := ["b", "c"], id := "id0",
        date_added := ⟨2024, 1, 2, 3, 4, 5, 0⟩,
        last_contacted := some ⟨2024, 2, 2, 3, 4, 5, 0⟩,
        activity_history :=
          [⟨⟨2024, 1, 2, 3, 4, 5, 0⟩, .created, "Lead created for Jane", none⟩,
           ⟨⟨2024, 2, 2, 3, 4, 5, 0⟩, .status_changed, "Status changed from not_contacted to contacted", none⟩,
           ⟨⟨2024, 2, 2, 3, 4, 5, 0⟩, .note_added, "Note updated", some ("hello")⟩,
           ⟨⟨2024, 2, 2, 3, 4, 5, 0⟩, .tag_added, "Tag added: c", none⟩,
           ⟨⟨2024, 2, 2, 3, 4, 5, 0⟩, .tag_removed, "Tag removed: a", none⟩] } := by
  decide

/-! ### Shape of the appended activity blocks -/

theorem mem_statusActs_type {lead : Lead} {lead_data : LeadUpdate} {now : DateTime} :
    ∀ a ∈ statusActs lead lead_data now, a.type = ActivityType.status_changed := by
  unfold statusActs
  split <;> simp

theorem mem_noteActs_type {lead : Lead} {lead_data : LeadUpdate} {now : DateTime} :
    ∀ a ∈ noteActs lead lead_data now, a.type = ActivityType.note_added := by
  unfold noteActs
  split <;> simp

theorem mem_tagAddedActs_type {lead : Lead} {lead_data : LeadUpdate} {now : DateTime} :
    ∀ a ∈ tagAddedActs lead lead_data now, a.type = ActivityType.tag_added := by
  intro a ha
  unfold tagAddedActs at ha
  simp only [List.mem_map] at ha
  obtain ⟨t, _, rfl⟩ := ha
  rfl

theorem mem_tagRemovedActs_type {lead : Lead} {lead_data : LeadUpdate} {now : DateTime} :
    ∀ a ∈ tagRemovedActs lead lead_data now, a.type = ActivityType.tag_removed := by
  intro a ha
  unfold tagRemovedActs at ha
  simp only [List.mem_map] at ha
  obtain ⟨t, _, rfl⟩ := ha
  rfl

theorem mem_fallbackActs_type {lead : Lead} {lead_data : LeadUpdate} {now : DateTime} :
    ∀ a ∈ fallbackActs lead lead_data now, a.type = ActivityType.updated := by
  unfold fallbackActs
  split <;> simp

theorem statusActs_length {lead : Lead} {lead_data : LeadUpdate} {now : DateTime} :
    (statusActs lead lead_data now).length =
      if lead_data.status ≠ lead.status then 1 else 0 := by
  unfold statusActs
  split <;> simp_all

/-- Filtering the appended activities down to one `ActivityType` keeps only
the corresponding block. -/
theorem appendedActs_filter_status (lead : Lead) (lead_data : LeadUpdate) (now : DateTime) :
    (appendedActs lead lead_data now).filter
        (fun a => a.type = ActivityType.status_changed) =
      statusActs lead lead_data now := by
  unfold appendedActs stepActs
  simp only [List.filter_append]
  rw [List.filter_eq_self.mpr (fun a ha => by simp [mem_statusActs_type a ha]),
    List.filter_eq_nil_iff.mpr (fun a ha => by simp [mem_noteActs_type a ha]),
    List.filter_eq_nil_iff.mpr (fun a ha => by simp [mem_tagAddedActs_type a ha]),
    List.filter_eq_nil_iff.mpr (fun a ha => by simp [mem_tagRemovedActs_type a ha]),
    List.filter_eq_nil_iff.mpr (fun a ha => by simp [mem_fallbackActs_type a ha])]
  simp

theorem appendedActs_filter_note (lead : Lead) (lead_data : LeadUpdate) (now : DateTime) :
    (appendedActs lead lead_data now).filter
        (fun a => a.type = ActivityType.note_added) =
      noteActs lead lead_data now := by
  unfold appendedActs stepActs
  simp only [List.filter_append]
  rw [List.filter_eq_nil_iff.mpr (fun a ha => by simp [mem_statusActs_type a ha]),
    List.filter_eq_self.mpr (fun a ha => by simp [mem_noteActs_type a ha]),
    List.filter_eq_nil_iff.mpr (fun a ha => by simp [mem_tagAddedActs_type a ha]),
    List.filter_eq_nil_iff.mpr (fun a ha => by simp [mem_tagRemovedActs_type a ha]),
    List.filter_eq_nil_iff.mpr (fun a ha => by simp [mem_fallbackActs_type a ha])]
  simp

/-! ### C2: status change -/

/-- C2 (confirmed): for every existing lead and update, a differing status
appends exactly one `status_changed` activity and sets `last_contacted` to
the update timestamp exactly when the new status is `contacted` or
`responded` (otherwise the old value is carried forward); an unchanged
status appends no `status_changed` activity and carries `last_contacted`
forward unchanged. -/
theorem update_status_change_spec (lead : Lead) (lead_data : LeadUpdate) (now : DateTime) :
    (lead_data.status ≠ lead.status →
      ((appendedActs lead lead_data now).filter
          (fun a => a.type = ActivityType.status_changed)).length = 1 ∧
      (applyUpdate lead lead_data now).last_contacted =
        (if lead_data.status = .contacted ∨ lead_data.status = .responded then
          some now
        else lead.last_contacted)) ∧
    (lead_data.status = lead.status →
      ((appendedActs lead lead_data now).filter
          (fun a => a.type = ActivityType.status_changed)).length = 0 ∧
      (applyUpdate lead lead_data now).last_contacted = lead.last_contacted) := by
  rw [appendedActs_filter_status]
  constructor
  · intro h
    constructor
    · simp [statusActs, h]
    · simp [applyUpdate, h]
  · intro h
    constructor
    · simp [statusActs, h]
    · simp [applyUpdate, h]

/-- Witness for C2: a concrete `not_contacted → contacted` transition
appends one `status_changed` activity and stamps `last_contacted`. -/
theorem update_status_change_spec_witness :
    ((appendedActs
        { company_name := "Acme", contact_name := "Jane Doe", title := "CEO",
          email := "jane@acme.com", linkedin_url := "", status := .not_contacted,
          notes := "", tags := [], id := "lead-1",
          date_added := ⟨2024, 1, 2, 3, 4, 5, 0⟩, last_contacted := none,
          activity_history := [⟨⟨2024, 1, 2, 3, 4, 5, 0⟩, .created,
            "Lead created for Jane Doe", none⟩] }
        { company_name := "Acme", contact_name := "Jane Doe", title := "CEO",
          email := "jane@acme.com", linkedin_url := "", status := .contacted,
          notes := "", tags := [] }
        ⟨2024, 3, 4, 5, 6, 7, 8⟩).filter
        (fun a => a.type = ActivityType.status_changed)).length = 1 ∧
    (applyUpdate
        { company_name := "Acme", contact_name := "Jane Doe", title := "CEO",
          email := "jane@acme.com", linkedin_url := "", status := .not_contacted,
          notes := "", tags := [], id := "lead-1",
          date_added := ⟨2024, 1, 2, 3, 4, 5, 0⟩, last_contacted := none,
          activity_history := [⟨⟨2024, 1, 2, 3, 4, 5, 0⟩, .created,
            "Lead created for Jane Doe", none⟩] }
        { company_name := "Acme", contact_name := "Jane Doe", title := "CEO",
          email := "jane@acme.com", linkedin_url := "", status := .contacted,
          notes := "", tags := [] }
        ⟨2024, 3, 4, 5, 6, 7, 8⟩).last_contacted = some ⟨2024, 3, 4, 5, 6, 7, 8⟩ := by
  have h := (update_status_change_spec
    { company_name := "Acme", contact_name := "Jane Doe", title := "CEO",
      email := "jane@acme.com", linkedin_url := "", status := .not_contacted,
      notes := "", tags := [], id := "lead-1",
      date_added := ⟨2024, 1, 2, 3, 4, 5, 0⟩, last_contacted := none,
      activity_history := [⟨⟨2024, 1, 2, 3, 4, 5, 0⟩, .created,
        "Lead created for Jane Doe", none⟩] }
    { company_name := "Acme", contact_name := "Jane Doe", title := "CEO",
      email := "jane@acme.com", linkedin_url := "", status := .contacted,
      notes := "", tags := [] }
    ⟨2024, 3, 4, 5, 6, 7, 8⟩).1 (by decide)
  exact ⟨h.1, by rw [h.2]; decide⟩

/-! ### C5: id and date_added preserved, history append-only -/

/-- C5 (confirmed): an update preserves `id` and `date_added`, and the
resulting activity history is exactly the old history followed by the
activities this update appends (in particular the old prefix is intact and
in order). -/
theorem update_preserves_identity_and_history (lead : Lead) (lead_data : LeadUpdate)
    (now : DateTime) :
    (applyUpdate lead lead_data now).id = lead.id ∧
    (applyUpdate lead lead_data now).date_added = lead.date_added ∧
    (applyUpdate lead lead_data now).activity_history =
      lead.activity_history ++ appendedActs lead lead_data now ∧
    (applyUpdate lead lead_data now).activity_history.take
      lead.activity_history.length = lead.activity_history := by
  refine ⟨by simp [applyUpdate], by simp [applyUpdate], applyUpdate_history .., ?_⟩
  rw [applyUpdate_history]
  exact List.take_left ..

/-! ### C1: company-name-only update and the `updated` fallback -/

/-- A lead whose history already ends in a tracked (`status_changed`)
entry, as produced by a previous status-changing update. -/
def cexLead : Lead :=
  { company_name := "Acme", contact_name := "Jane Doe", title := "CEO",
    email := "jane@acme.com", linkedin_url := "", status := .contacted,
    notes := "", tags := [], id := "lead-1",
    date_added := ⟨2024, 1, 2, 3, 4, 5, 0⟩,
    last_contacted := some ⟨2024, 1, 3, 3, 4, 5, 0⟩,
    activity_history :=
      [⟨⟨2024, 1, 2, 3, 4, 5, 0⟩, .created, "Lead created for Jane Doe", none⟩,
       ⟨⟨2024, 1, 3, 3, 4, 5, 0⟩, .status_changed,
        "Status changed from not_contacted to contacted", none⟩] }

/-- An update of `cexLead` that changes only `company_name`. -/
def cexUpdate : LeadUpdate :=
  { company_name := "Acme Corp", contact_name := "Jane Doe", title := "CEO",
    email := "jane@acme.com", linkedin_url := "", status := .contacted,
    notes := "", tags := [] }

/-- C1 counterexample: an update changing only `company_name` appends NO
activity at all when the last entry of the old history has a tracked type
(here `status_changed`), because the fallback guard inspects the last
element of the combined list, old history included.  So the update does
not append exactly one `updated` activity "regardless of what the last
entry of the old activity history is". -/
theorem update_companyOnly_cex :
    cexUpdate.status = cexLead.status ∧ cexUpdate.notes = cexLead.notes ∧
    cexUpdate.tags = cexLead.tags ∧ cexUpdate.company_name ≠ cexLead.company_name ∧
    appendedActs cexLead cexUpdate ⟨2024, 2, 2, 3, 4, 5, 0⟩ = [] ∧
    (applyUpdate cexLead cexUpdate ⟨2024, 2, 2, 3, 4, 5, 0⟩).activity_history =
      cexLead.activity_history := by
  refine ⟨rfl, rfl, rfl, by decide, by decide, by decide⟩

/-- C1 (corrected): for an update whose status, notes and tags all equal
the old lead's values (e.g. one changing only `company_name`), exactly one
generic `updated` activity is appended when the old activity history is
empty or ends in a `created`/`updated` entry, and NO activity is appended
when the old history ends in a tracked entry (`status_changed`,
`note_added`, `tag_added` or `tag_removed`). -/
theorem update_companyOnly_fallback (lead : Lead) (lead_data : LeadUpdate) (now : DateTime)
    (hs : lead_data.status = lead.status) (hn : lead_data.notes = lead.notes)
    (ht : lead_data.tags = lead.tags) :
    appendedActs lead lead_data now =
      if lastIsTracked lead.activity_history then []
      else [⟨now, .updated, "Lead information updated", none⟩] := by
  have h1 : statusActs lead lead_data now = [] := by simp [statusActs, hs]
  have h2 : noteActs lead lead_data now = [] := by simp [noteActs, hn]
  have h3 : tagAddedActs lead lead_data now = [] := by
    unfold tagAddedActs
    rw [List.map_eq_nil_iff, List.filter_eq_nil_iff]
    intro t htmem
    simp only [ht] at htmem
    simp [List.mem_dedup.mp htmem]
  have h4 : tagRemovedActs lead lead_data now = [] := by
    unfold tagRemovedActs
    rw [List.map_eq_nil_iff, List.filter_eq_nil_iff]
    intro t htmem
    simp only [← ht] at htmem
    simp [List.mem_dedup.mp htmem]
  simp [appendedActs, stepActs, fallbackActs, h1, h2, h3, h4]

/-- Witness for C1's corrected statement: when the old history ends in the
`created` entry, a company-name-only update appends exactly one `updated`
activity. -/
theorem update_companyOnly_fallback_witness :
    appendedActs
      { company_name := "Acme", contact_name := "Jane Doe", title := "CEO",
        email := "jane@acme.com", linkedin_url := "", status := .not_contacted,
        notes := "", tags := [], id := "lead-1",
        date_added := ⟨2024, 1, 2, 3, 4, 5, 0⟩, last_contacted := none,
        activity_history := [⟨⟨2024, 1, 2, 3, 4, 5, 0⟩, .created,
          "Lead created for Jane Doe", none⟩] }
      { company_name := "Acme Corp", contact_name := "Jane Doe", title := "CEO",
        email := "jane@acme.com", linkedin_url := "", status := .not_contacted,
        notes := "", tags := [] }
      ⟨2024, 2, 2, 3, 4, 5, 0⟩ =
      [⟨⟨2024, 2, 2, 3, 4, 5, 0⟩, .updated, "Lead information updated", none⟩] := by
  have h := update_companyOnly_fallback
    { company_name := "Acme", contact_name := "Jane Doe", title := "CEO",
      email := "jane@acme.com", linkedin_url := "", status := .not_contacted,
      notes := "", tags := [], id := "lead-1",
      date_added := ⟨2024, 1, 2, 3, 4, 5, 0⟩, last_contacted := none,
      activity_history := [⟨⟨2024, 1, 2, 3, 4, 5, 0⟩, .created,
        "Lead created for Jane Doe", none⟩] }
    { company_name := "Acme Corp", contact_name := "Jane Doe", title := "CEO",
      email := "jane@acme.com", linkedin_url := "", status := .not_contacted,
      notes := "", tags := [] }
    ⟨2024, 2, 2, 3, 4, 5, 0⟩ rfl rfl rfl
  rw [h]
  decide

/-! ### C4: note change -/

/-- C4 (confirmed): a `note_added` activity is appended exactly when the
new notes are non-empty and differ from the old notes, and in that case it
is unique and its `details` is the first 100 characters of the new
notes. -/
theorem update_note_spec (lead : Lead) (lead_data : LeadUpdate) (now : DateTime) :
    ((appendedActs lead lead_data now).filter
        (fun a => a.type = ActivityType.note_added)).length =
      (if lead_data.notes ≠ "" ∧ lead_data.notes ≠ lead.notes then 1 else 0) ∧
    (lead_data.notes ≠ "" ∧ lead_data.notes ≠ lead.notes →
      (appendedActs lead lead_data now).filter
          (fun a => a.type = ActivityType.note_added) =
        [⟨now, .note_added, "Note updated", some (lead_data.notes.take 100)⟩]) := by
  rw [appendedActs_filter_note]
  constructor
  · unfold noteActs
    split <;> simp_all
  · intro h
    simp [noteActs, h]

set_option maxRecDepth 8000 in
/-- Witness for C4: a concrete notes-only update appends one `note_added`
activity carrying the (short) new notes as details. -/
theorem update_note_spec_witness :
    (appendedActs
        { company_name := "Acme", contact_name := "Jane Doe", title := "CEO",
          email := "jane@acme.com", linkedin_url := "", status := .not_contacted,
          notes := "", tags := [], id := "lead-1",
          date_added := ⟨2024, 1, 2, 3, 4, 5, 0⟩, last_contacted := none,
          activity_history := [⟨⟨2024, 1, 2, 3, 4, 5, 0⟩, .created,
            "Lead created for Jane Doe", none⟩] }
        { company_name := "Acme", contact_name := "Jane Doe", title := "CEO",
          email := "jane@acme.com", linkedin_url := "", status := .not_contacted,
          notes := "call back Monday", tags := [] }
        ⟨2024, 2, 2, 3, 4, 5, 0⟩).filter
        (fun a => a.type = ActivityType.note_added) =
      [⟨⟨2024, 2, 2, 3, 4, 5, 0⟩, .note_added, "Note updated",
        some ("call back Monday")⟩] := by
  have h := (update_note_spec
    { company_name := "Acme", contact_name := "Jane Doe", title := "CEO",
      email := "jane@acme.com", linkedin_url := "", status := .not_contacted,
      notes := "", tags := [], id := "lead-1",
      date_added := ⟨2024, 1, 2, 3, 4, 5, 0⟩, last_contacted := none,
      activity_history := [⟨⟨2024, 1, 2, 3, 4, 5, 0⟩, .created,
        "Lead created for Jane Doe", none⟩] }
    { company_name := "Acme", contact_name := "Jane Doe", title := "CEO",
      email := "jane@acme.com", linkedin_url := "", status := .not_contacted,
      notes := "call back Monday", tags := [] }
    ⟨2024, 2, 2, 3, 4, 5, 0⟩).2 (by decide)
  rw [h]
  decide

/-! ### C3: tag changes -/

theorem string_append_cancel_left {s t u : String} (h : s ++ t = s ++ u) : t = u := by
  apply String.ext
  have hd := congrArg String.data h
  simp only [String.data_append] at hd
  exact List.append_cancel_left hd

/-- On a duplicate-free list, filtering for one value keeps exactly one
element when present and none otherwise. -/
theorem length_filter_eq_of_nodup {l : List String} (hl : l.Nodup) (t : String) :
    (l.filter (fun x => x = t)).length = if t ∈ l then 1 else 0 := by
  induction l with
  | nil => simp
  | cons a l ih =>
    simp only [List.nodup_cons] at hl
    rcases eq_or_ne a t with h | h
    · subst h
      simp [List.filter_cons, ih hl.2, hl.1]
    · have h' : t ≠ a := Ne.symm h
      simp [List.filter_cons, h, h', ih hl.2]

/-- The `tag_added` block, filtered for one tag's entry, seen as a count. -/
theorem tagAddedActs_count (lead : Lead) (lead_data : LeadUpdate) (now : DateTime)
    (t : String) :
    ((tagAddedActs lead lead_data now).filter
        (fun a => a.type = ActivityType.tag_added ∧
          a.description = "Tag added: " ++ t)).length =
      if t ∈ lead_data.tags ∧ t ∉ lead.tags then 1 else 0 := by
  unfold tagAddedActs
  rw [List.filter_map, List.length_map]
  have hcongr :
      (lead_data.tags.dedup.filter (fun x => x ∉ lead.tags)).filter
          ((fun a => decide (a.type = ActivityType.tag_added ∧
            a.description = "Tag added: " ++ t)) ∘
            (fun x => ({ timestamp := now, type := .tag_added, description := "Tag added: " ++ x, details := none } : Activity))) =
        (lead_data.tags.dedup.filter (fun x => x ∉ lead.tags)).filter
          (fun x => x = t) := by
    apply List.filter_congr
    intro x _
    simp only [Function.comp_apply, decide_eq_decide]
    constructor
    · intro hx
      exact string_append_cancel_left hx.2
    · intro hx
      subst hx
      simp
  rw [hcongr, length_filter_eq_of_nodup ((lead_data.tags.nodup_dedup).filter _)]
  have hiff : (t ∈ lead_data.tags.dedup.filter (fun x => x ∉ lead.tags)) ↔
      (t ∈ lead_data.tags ∧ t ∉ lead.tags) := by
    simp [List.mem_filter, List.mem_dedup]
  by_cases hm : t ∈ lead_data.tags ∧ t ∉ lead.tags
  · rw [if_pos (hiff.mpr hm), if_pos hm]
  · rw [if_neg (fun hc => hm (hiff.mp hc)), if_neg hm]

/-- The `tag_removed` block, filtered for one tag's entry, seen as a count. -/
theorem tagRemovedActs_count (lead : Lead) (lead_data : LeadUpdate) (now : DateTime)
    (t : String) :
    ((tagRemovedActs lead lead_data now).filter
        (fun a => a.type = ActivityType.tag_removed ∧
          a.description = "Tag removed: " ++ t)).length =
      if t ∈ lead.tags ∧ t ∉ lead_data.tags then 1 else 0 := by
  unfold tagRemovedActs
  rw [List.filter_map, List.length_map]
  have hcongr :
      (lead.tags.dedup.filter (fun x => x ∉ lead_data.tags)).filter
          ((fun a => decide (a.type = ActivityType.tag_removed ∧
            a.description = "Tag removed: " ++ t)) ∘
            (fun x => ({ timestamp := now, type := .tag_removed, description := "Tag removed: " ++ x, details := none } : Activity))) =
        (lead.tags.dedup.filter (fun x => x ∉ lead_data.tags)).filter
          (fun x => x = t) := by
    apply List.filter_congr
    intro x _
    simp only [Function.comp_apply, decide_eq_decide]
    constructor
    · intro hx
      exact string_append_cancel_left hx.2
    · intro hx
      subst hx
      simp
  rw [hcongr, length_filter_eq_of_nodup ((lead.tags.nodup_dedup).filter _)]
  have hiff : (t ∈ lead.tags.dedup.filter (fun x => x ∉ lead_data.tags)) ↔
      (t ∈ lead.tags ∧ t ∉ lead_data.tags) := by
    simp [List.mem_filter, List.mem_dedup]
  by_cases hm : t ∈ lead.tags ∧ t ∉ lead_data.tags
  · rw [if_pos (hiff.mpr hm), if_pos hm]
  · rw [if_neg (fun hc => hm (hiff.mp hc)), if_neg hm]

/-- An append whose left part contains no `tag_removed` entry and whose
right part contains no `tag_added` entry never shows a `tag_removed` entry
before a `tag_added` one. -/
theorem pairwise_no_removed_before_added {l₁ l₂ : List Activity}
    (h₁ : ∀ a ∈ l₁, a.type ≠ ActivityType.tag_removed)
    (h₂ : ∀ b ∈ l₂, b.type ≠ ActivityType.tag_added) :
    (l₁ ++ l₂).Pairwise
      (fun a b => ¬(a.type = ActivityType.tag_removed ∧
        b.type = ActivityType.tag_added)) := by
  rw [List.pairwise_append]
  refine ⟨List.pairwise_of_forall_mem_list (fun a ha b _ hc => h₁ a ha hc.1),
    List.pairwise_of_forall_mem_list (fun a _ b hb hc => h₂ b hb hc.2),
    fun a ha b _ hc => h₁ a ha hc.1⟩

/-- When some tag is gained or lost, the last element of the combined
activity list is a tag entry, so the generic fallback is suppressed. -/
theorem fallbackActs_eq_nil_of_tag_change (lead : Lead) (lead_data : LeadUpdate)
    (now : DateTime)
    (h : ∃ t, (t ∈ lead_data.tags ∧ t ∉ lead.tags) ∨
      (t ∈ lead.tags ∧ t ∉ lead_data.tags)) :
    fallbackActs lead lead_data now = [] := by
  obtain ⟨t, ht⟩ := h
  have hne : tagAddedActs lead lead_data now ++ tagRemovedActs lead lead_data now ≠ [] := by
    rcases ht with ⟨h1, h2⟩ | ⟨h1, h2⟩
    · have : t ∈ lead_data.tags.dedup.filter (fun x => x ∉ lead.tags) := by
        simp [List.mem_filter, List.mem_dedup, h1, h2]
      intro hc
      rcases List.append_eq_nil.mp hc with ⟨hca, _⟩
      unfold tagAddedActs at hca
      rw [List.map_eq_nil_iff] at hca
      rw [hca] at this
      exact absurd this (List.not_mem_nil t)
    · have : t ∈ lead.tags.dedup.filter (fun x => x ∉ lead_data.tags) := by
        simp [List.mem_filter, List.mem_dedup, h1, h2]
      intro hc
      rcases List.append_eq_nil.mp hc with ⟨_, hcr⟩
      unfold tagRemovedActs at hcr
      rw [List.map_eq_nil_iff] at hcr
      rw [hcr] at this
      exact absurd this (List.not_mem_nil t)
  have hsplit : lead.activity_history ++ stepActs lead lead_data now =
      (lead.activity_history ++ statusActs lead lead_data now ++
        noteActs lead lead_data now) ++
      (tagAddedActs lead lead_data now ++ tagRemovedActs lead lead_data now) := by
    simp [stepActs, List.append_assoc]
  have hlast : (lead.activity_history ++ stepActs lead lead_data now).getLast? =
      (tagAddedActs lead lead_data now ++ tagRemovedActs lead lead_data now).getLast? := by
    rw [hsplit]
    exact List.getLast?_append_of_ne_nil _ hne
  have htracked : lastIsTracked (lead.activity_history ++ stepActs lead lead_data now) = true := by
    unfold lastIsTracked
    rw [hlast]
    have hsome : (tagAddedActs lead lead_data now ++
        tagRemovedActs lead lead_data now).getLast?.isSome := by
      rw [List.getLast?_isSome]
      exact hne
    obtain ⟨a, hga⟩ := Option.isSome_iff_exists.mp hsome
    rw [hga]
    show isTrackedType a.type = true
    have hmem := List.mem_of_mem_getLast? hga
    rcases List.mem_append.mp hmem with hm | hm
    · rw [mem_tagAddedActs_type a hm]
      rfl
    · rw [mem_tagRemovedActs_type a hm]
      rfl
  unfold fallbackActs
  rw [htracked]
  simp

/-- C3 (confirmed): every gained tag yields exactly one `tag_added`
activity, every lost tag exactly one `tag_removed` activity, no
`tag_removed` entry precedes any `tag_added` entry among the appended
activities, and a tag change suppresses the generic `updated` fallback. -/
theorem update_tags_spec (lead : Lead) (lead_data : LeadUpdate) (now : DateTime) :
    (∀ t, ((appendedActs lead lead_data now).filter
        (fun a => a.type = ActivityType.tag_added ∧
          a.description = "Tag added: " ++ t)).length =
      if t ∈ lead_data.tags ∧ t ∉ lead.tags then 1 else 0) ∧
    (∀ t, ((appendedActs lead lead_data now).filter
        (fun a => a.type = ActivityType.tag_removed ∧
          a.description = "Tag removed: " ++ t)).length =
      if t ∈ lead.tags ∧ t ∉ lead_data.tags then 1 else 0) ∧
    (appendedActs lead lead_data now).Pairwise
      (fun a b => ¬(a.type = ActivityType.tag_removed ∧
        b.type = ActivityType.tag_added)) ∧
    ((∃ t, (t ∈ lead_data.tags ∧ t ∉ lead.tags) ∨
        (t ∈ lead.tags ∧ t ∉ lead_data.tags)) →
      (appendedActs lead lead_data now).filter
        (fun a => a.type = ActivityType.updated) = []) := by
  refine ⟨?_, ?_, ?_, ?_⟩
  · intro t
    unfold appendedActs stepActs
    simp only [List.filter_append, List.length_append]
    have h1 : (statusActs lead lead_data now).filter
        (fun a => a.type = ActivityType.tag_added ∧
          a.description = "Tag added: " ++ t) = [] :=
      List.filter_eq_nil_iff.mpr (fun a ha => by simp [mem_statusActs_type a ha])
    have h2 : (noteActs lead lead_data now).filter
        (fun a => a.type = ActivityType.tag_added ∧
          a.description = "Tag added: " ++ t) = [] :=
      List.filter_eq_nil_iff.mpr (fun a ha => by simp [mem_noteActs_type a ha])
    have h4 : (tagRemovedActs lead lead_data now).filter
        (fun a => a.type = ActivityType.tag_added ∧
          a.description = "Tag added: " ++ t) = [] :=
      List.filter_eq_nil_iff.mpr (fun a ha => by simp [mem_tagRemovedActs_type a ha])
    have h5 : (fallbackActs lead lead_data now).filter
        (fun a => a.type = ActivityType.tag_added ∧
          a.description = "Tag added: " ++ t) = [] :=
      List.filter_eq_nil_iff.mpr (fun a ha => by simp [mem_fallbackActs_type a ha])
    rw [h1, h2, h4, h5]
    simpa using tagAddedActs_count lead lead_data now t
  · intro t
    unfold appendedActs stepActs
    simp only [List.filter_append, List.length_append]
    have h1 : (statusActs lead lead_data now).filter
        (fun a => a.type = ActivityType.tag_removed ∧
          a.description = "Tag removed: " ++ t) = [] :=
      List.filter_eq_nil_iff.mpr (fun a ha => by simp [mem_statusActs_type a ha])
    have h2 : (noteActs lead lead_data now).filter
        (fun a => a.type = ActivityType.tag_removed ∧
          a.description = "Tag removed: " ++ t) = [] :=
      List.filter_eq_nil_iff.mpr (fun a ha => by simp [mem_noteActs_type a ha])
    have h3 : (tagAddedActs lead lead_data now).filter
        (fun a => a.type = ActivityType.tag_removed ∧
          a.description = "Tag removed: " ++ t) = [] :=
      List.filter_eq_nil_iff.mpr (fun a ha => by simp [mem_tagAddedActs_type a ha])
    have h5 : (fallbackActs lead lead_data now).filter
        (fun a => a.type = ActivityType.tag_removed ∧
          a.description = "Tag removed: " ++ t) = [] :=
      List.filter_eq_nil_iff.mpr (fun a ha => by simp [mem_fallbackActs_type a ha])
    rw [h1, h2, h3, h5]
    simpa using tagRemovedActs_count lead lead_data now t
  · have hsplit : appendedActs lead lead_data now =
        (statusActs lead lead_data now ++ noteActs lead lead_data now ++
          tagAddedActs lead lead_data now) ++
        (tagRemovedActs lead lead_data now ++ fallbackActs lead lead_data now) := by
      simp [appendedActs, stepActs, List.append_assoc]
    rw [hsplit]
    apply pairwise_no_removed_before_added
    · intro a ha
      rcases List.mem_append.mp ha with ha' | ha'
      · rcases List.mem_append.mp ha' with ha'' | ha''
        · simp [mem_statusActs_type a ha'']
        · simp [mem_noteActs_type a ha'']
      · simp [mem_tagAddedActs_type a ha']
    · intro b hb
      rcases List.mem_append.mp hb with hb' | hb'
      · simp [mem_tagRemovedActs_type b hb']
      · simp [mem_fallbackActs_type b hb']
  · intro h
    unfold appendedActs stepActs
    rw [fallbackActs_eq_nil_of_tag_change lead lead_data now h]
    simp only [List.append_nil, List.filter_append]
    rw [List.filter_eq_nil_iff.mpr (fun a ha => by simp [mem_statusActs_type a ha]),
      List.filter_eq_nil_iff.mpr (fun a ha => by simp [mem_noteActs_type a ha]),
      List.filter_eq_nil_iff.mpr (fun a ha => by simp [mem_tagAddedActs_type a ha]),
      List.filter_eq_nil_iff.mpr (fun a ha => by simp [mem_tagRemovedActs_type a ha])]
    simp

/-- The lead of the spec's tag example, carrying tags `{a, b}`. -/
def tagLead : Lead :=
  { company_name := "Acme", contact_name := "Jane Doe", title := "CEO",
    email := "jane@acme.com", linkedin_url := "", status := .not_contacted,
    notes := "", tags := ["a", "b"], id := "lead-1",
    date_added := ⟨2024, 1, 2, 3, 4, 5, 0⟩, last_contacted := none,
    activity_history := [⟨⟨2024, 1, 2, 3, 4, 5, 0⟩, .created,
      "Lead created for Jane Doe", none⟩] }

/-- The update of the spec's tag example, carrying tags `{b, c}`. -/
def tagUpdate : LeadUpdate :=
  { company_name := "Acme", contact_name := "Jane Doe", title := "CEO",
    email := "jane@acme.com", linkedin_url := "", status := .not_contacted,
    notes := "", tags := ["b", "c"] }

/-- Witness for C3: with old tags `{a, b}` and new tags `{b, c}` the update
appends exactly one `tag_added` for `c`, exactly one `tag_removed` for `a`,
and no `updated` fallback. -/
theorem update_tags_spec_witness :
    ((appendedActs tagLead tagUpdate ⟨2024, 2, 2, 3, 4, 5, 0⟩).filter
        (fun a => a.type = ActivityType.tag_added ∧
          a.description = "Tag added: " ++ "c")).length = 1 ∧
    ((appendedActs tagLead tagUpdate ⟨2024, 2, 2, 3, 4, 5, 0⟩).filter
        (fun a => a.type = ActivityType.tag_removed ∧
          a.description = "Tag removed: " ++ "a")).length = 1 ∧
    (appendedActs tagLead tagUpdate ⟨2024, 2, 2, 3, 4, 5, 0⟩).filter
        (fun a => a.type = ActivityType.updated) = [] := by
  have h := update_tags_spec tagLead tagUpdate ⟨2024, 2, 2, 3, 4, 5, 0⟩
  refine ⟨?_, ?_, ?_⟩
  · rw [h.1 ("c")]
    decide
  · rw [h.2.1 ("a")]
    decide
  · exact h.2.2.2 ⟨"c", Or.inl (by decide)⟩

/-! ### C6: lead creation -/

/-- `create_lead` (database.py lines 195–231): seed a `created` activity,
build the new lead with a fresh id, `date_added = now`,
`last_contacted = None`, and append it to the collection.  The fresh
`uuid4` id and the `datetime.now()` timestamp are passed in explicitly. -/
def create_lead (lead_data : LeadCreate) (new_id : String) (now : DateTime)
    (leads : List Lead) : Lead × List Lead :=
  let initial_activity : Activity :=
    { timestamp := now, type := .created,
      description := "Lead created for " ++ lead_data.contact_name,
      details := none }
  let new_lead : Lead :=
    { toLeadBase := lead_data, id := new_id, date_added := now,
      last_contacted := none, activity_history := [initial_activity] }
  (new_lead, leads ++ [new_lead])

/-- C6 (confirmed): a freshly created lead has exactly one activity, of
type `created`, whose description contains the contact name; its
`last_contacted` is null and its `date_added` is the creation time. -/
theorem create_lead_spec (lead_data : LeadCreate) (new_id : String) (now : DateTime)
    (leads : List Lead) :
    (create_lead lead_data new_id now leads).1.activity_history.length = 1 ∧
    (∀ a ∈ (create_lead lead_data new_id now leads).1.activity_history,
      a.type = ActivityType.created ∧
      ∃ p q, a.description = p ++ lead_data.contact_name ++ q) ∧
    (create_lead lead_data new_id now leads).1.last_contacted = none ∧
    (create_lead lead_data new_id now leads).1.date_added = now := by
  refine ⟨rfl, ?_, rfl, rfl⟩
  intro a ha
  simp only [create_lead, List.mem_singleton] at ha
  subst ha
  refine ⟨rfl, "Lead created for ", "", ?_⟩
  rw [String.append_empty]

/-- Witness for C6: the single seeded activity of a concrete creation has
type `created` and mentions "Jane Doe". -/
theorem create_lead_spec_witness :
    (⟨⟨2024, 1, 2, 3, 4, 5, 0⟩, .created, "Lead created for " ++ "Jane Doe",
        none⟩ : Activity).type = ActivityType.created ∧
    ∃ p q, (⟨⟨2024, 1, 2, 3, 4, 5, 0⟩, .created, "Lead created for " ++ "Jane Doe",
        none⟩ : Activity).description = p ++ "Jane Doe" ++ q := by
  have h := (create_lead_spec
    { company_name := "Acme", contact_name := "Jane Doe", title := "CEO",
      email := "jane@acme.com", linkedin_url := "", status := .not_contacted,
      notes := "", tags := [] }
    "lead-1" ⟨2024, 1, 2, 3, 4, 5, 0⟩ []).2.1
  exact h _ (by decide)

/-! ### C9: deletion -/

/-- Outcome of `delete_lead`: the returned flag, the collection on disk
after the call, and whether `save_leads` was invoked. -/
structure DeleteResult where
  deleted : Bool
  stored : List Lead
  saved : Bool
deriving DecidableEq, Repr

/-- `delete_lead` (database.py lines 330–352): keep the leads whose id
differs, persist and report `True` only when the collection shrank. -/
def delete_lead (lead_id : String) (leads : List Lead) : DeleteResult :=
  let remaining := leads.filter (fun l => l.id ≠ lead_id)
  if remaining.length < leads.length then
    { deleted := true, stored := remaining, saved := true }
  else
    { deleted := false, stored := leads, saved := false }

/-- C9 (confirmed): `delete_lead` reports a deletion iff a lead with the
given id is present; on a miss nothing is stored or saved; on a hit (ids
being unique) exactly the matching record is removed, the rest staying in
order, and the smaller collection is persisted. -/
theorem delete_lead_spec (lead_id : String) (leads : List Lead)
    (hnd : (leads.map (fun l => l.id)).Nodup) :
    ((delete_lead lead_id leads).deleted = true ↔ ∃ l ∈ leads, l.id = lead_id) ∧
    ((¬ ∃ l ∈ leads, l.id = lead_id) →
      (delete_lead lead_id leads).stored = leads ∧
      (delete_lead lead_id leads).saved = false) ∧
    (∀ l ∈ leads, l.id = lead_id →
      ∃ pre post, leads = pre ++ l :: post ∧
        (delete_lead lead_id leads).stored = pre ++ post ∧
        (delete_lead lead_id leads).saved = true ∧
        (delete_lead lead_id leads).deleted = true) := by
  have hiff : ((leads.filter (fun l => decide (l.id ≠ lead_id))).length <
        leads.length) ↔ (∃ l ∈ leads, l.id = lead_id) := by
    rw [List.length_filter_lt_length_iff_exists]
    simp
  refine ⟨?_, ?_, ?_⟩
  · simp only [delete_lead]
    split
    next hc =>
      constructor
      · intro _
        exact hiff.mp hc
      · intro _
        rfl
    next hc =>
      constructor
      · intro hfalse
        simp at hfalse
      · intro hex
        exact absurd (hiff.mpr hex) hc
  · intro hne
    simp only [delete_lead]
    split
    next hc => exact absurd (hiff.mp hc) hne
    next => exact ⟨rfl, rfl⟩
  · intro l hl hid
    obtain ⟨pre, post, rfl⟩ := List.append_of_mem hl
    rw [List.map_append, List.nodup_append] at hnd
    have hl_pre : ∀ x ∈ pre, x.id ≠ lead_id := by
      intro x hx hxe
      have h1 : l.id ∈ pre.map (fun y => y.id) :=
        List.mem_map.mpr ⟨x, hx, by rw [hxe, hid]⟩
      have h2 : l.id ∈ (l :: post).map (fun y => y.id) := by simp
      exact hnd.2.2 h1 h2
    have hl_post : ∀ x ∈ post, x.id ≠ lead_id := by
      have hcons := hnd.2.1
      rw [List.map_cons, List.nodup_cons] at hcons
      intro x hx hxe
      apply hcons.1
      rw [List.mem_map]
      exact ⟨x, hx, by rw [hxe, hid]⟩
    have hfilter : (pre ++ l :: post).filter (fun x => !decide (x.id = lead_id)) =
        pre ++ post := by
      rw [List.filter_append, List.filter_cons,
        List.filter_eq_self.mpr (fun x hx => by simp [hl_pre x hx]),
        List.filter_eq_self.mpr (fun x hx => by simp [hl_post x hx])]
      simp [hid]
    have hlen : (pre ++ post).length < (pre ++ l :: post).length := by
      simp [List.length_append]
    refine ⟨pre, post, rfl, ?_, ?_, ?_⟩ <;>
      simp [delete_lead, hfilter, hlen]

/-- Witness for C9: on the one-lead collection `[cexLead]`, deleting the
missing id "missing" stores and saves nothing, while deleting the present
id "lead-1" removes exactly that record and persists the empty rest. -/
theorem delete_lead_spec_witness :
    ((delete_lead ("missing") [cexLead]).deleted = true ↔
      ∃ l ∈ [cexLead], l.id = "missing") ∧
    ((delete_lead ("missing") [cexLead]).stored = [cexLead] ∧
      (delete_lead ("missing") [cexLead]).saved = false) ∧
    ∃ pre post, ([cexLead] : List Lead) = pre ++ cexLead :: post ∧
      (delete_lead ("lead-1") [cexLead]).stored = pre ++ post ∧
      (delete_lead ("lead-1") [cexLead]).saved = true ∧
      (delete_lead ("lead-1") [cexLead]).deleted = true := by
  have h1 := delete_lead_spec ("missing") [cexLead] (by decide)
  have h2 := delete_lead_spec ("lead-1") [cexLead] (by decide)
  exact ⟨h1.1, h1.2.1 (by decide), h2.2.2 cexLead (by decide) (by decide)⟩

/-! ### C10: the frame effect of update on the collection -/

/-- `update_lead` on the whole collection (database.py lines 234–327): walk
the list, replace the first lead whose id matches with its updated version
(keeping its position), persist, and return the updated lead; `None` when
no id matches. -/
def update_lead (lead_id : String) (lead_data : LeadUpdate) (now : DateTime) :
    List Lead → Option (Lead × List Lead)
  | [] => none
  | l :: ls =>
    if l.id = lead_id then
      some (applyUpdate l lead_data now, applyUpdate l lead_data now :: ls)
    else
      match update_lead lead_id lead_data now ls with
      | some (u, ls') => some (u, l :: ls')
      | none => none

/-- C10 (confirmed): when an update by id finds a match, the collection
keeps its length, the matching lead is replaced in place by its updated
version, and every position whose lead has a different id is left
completely unchanged (hence the relative order is preserved). -/
theorem update_lead_frame (lead_id : String) (lead_data : LeadUpdate) (now : DateTime)
    (leads : List Lead) (u : Lead) (leads' : List Lead)
    (h : update_lead lead_id lead_data now leads = some (u, leads')) :
    leads'.length = leads.length ∧
    (∃ i, ∃ hi : i < leads.length,
      (leads.get ⟨i, hi⟩).id = lead_id ∧
      u = applyUpdate (leads.get ⟨i, hi⟩) lead_data now ∧
      leads' = leads.set i u) ∧
    ∀ j (hj : j < leads.length) (hj' : j < leads'.length),
      (leads.get ⟨j, hj⟩).id ≠ lead_id →
      leads'.get ⟨j, hj'⟩ = leads.get ⟨j, hj⟩ := by
  induction leads generalizing u leads' with
  | nil => simp [update_lead] at h
  | cons l ls ih =>
    rw [update_lead] at h
    by_cases hc : l.id = lead_id
    · rw [if_pos hc] at h
      injection h with h'
      injection h' with hu hls
      subst hu
      subst hls
      refine ⟨by simp, ⟨0, by simp, hc, rfl, rfl⟩, ?_⟩
      intro j hj hj' hne
      match j with
      | 0 => exact absurd hc hne
      | j + 1 => rfl
    · rw [if_neg hc] at h
      cases hrec : update_lead lead_id lead_data now ls with
      | none =>
        rw [hrec] at h
        exact absurd h (by simp)
      | some p =>
        obtain ⟨u₀, ls₀⟩ := p
        rw [hrec] at h
        injection h with h'
        injection h' with hu hls
        subst hu
        subst hls
        obtain ⟨hlen, ⟨i, hi, hid, hu0, hset⟩, hframe⟩ := ih u₀ ls₀ hrec
        refine ⟨by simp [hlen], ⟨i + 1, Nat.succ_lt_succ hi, hid, hu0, ?_⟩, ?_⟩
        · rw [hset]
          rfl
        · intro j hj hj' hne
          match j with
          | 0 => rfl
          | j + 1 =>
            have hj₀ : j < ls.length := Nat.lt_of_succ_lt_succ hj
            have hj₀' : j < ls₀.length := by
              rw [hlen]
              exact hj₀
            exact hframe j hj₀ hj₀' hne

/-- A second lead, with an id distinct from `cexLead`'s. -/
def frameLeadB : Lead :=
  { company_name := "Globex", contact_name := "John Roe", title := "CTO",
    email := "john@globex.com", linkedin_url := "", status := .not_contacted,
    notes := "", tags := [], id := "lead-2",
    date_added := ⟨2024, 1, 5, 0, 0, 0, 0⟩, last_contacted := none,
    activity_history := [⟨⟨2024, 1, 5, 0, 0, 0, 0⟩, .created,
      "Lead created for John Roe", none⟩] }

/-- A company-name update for `frameLeadB`. -/
def frameUpd : LeadUpdate :=
  { company_name := "Globex LLC", contact_name := "John Roe", title := "CTO",
    email := "john@globex.com", linkedin_url := "", status := .not_contacted,
    notes := "", tags := [] }

set_option maxRecDepth 8000 in
/-- Witness for C10: updating id "lead-2" in a two-lead collection keeps
the length and leaves the first (non-matching) lead untouched. -/
theorem update_lead_frame_witness :
    ([cexLead, applyUpdate frameLeadB frameUpd ⟨2024, 2, 1, 0, 0, 0, 0⟩] : List Lead).length =
      ([cexLead, frameLeadB] : List Lead).length ∧
    ([cexLead, applyUpdate frameLeadB frameUpd ⟨2024, 2, 1, 0, 0, 0, 0⟩] : List Lead).get
        ⟨0, Nat.succ_pos 1⟩ =
      ([cexLead, frameLeadB] : List Lead).get ⟨0, Nat.succ_pos 1⟩ := by
  have h := update_lead_frame ("lead-2") frameUpd ⟨2024, 2, 1, 0, 0, 0, 0⟩
    [cexLead, frameLeadB]
    (applyUpdate frameLeadB frameUpd ⟨2024, 2, 1, 0, 0, 0, 0⟩)
    [cexLead, applyUpdate frameLeadB frameUpd ⟨2024, 2, 1, 0, 0, 0, 0⟩]
    (by rfl)
  exact ⟨h.1, h.2.2 0 (Nat.succ_pos 1) (Nat.succ_pos 1) (by decide)⟩

/-! ### C7: statistics -/

/-- The `status_counts` dict of `get_stats`, with its three fixed keys. -/
structure StatusCounts where
  not_contacted : Nat
  contacted : Nat
  responded : Nat
deriving DecidableEq, Repr

/-- `status_counts[lead.status.value] += 1`. -/
def bumpStatus (sc : StatusCounts) : LeadStatus → StatusCounts
  | .not_contacted => { sc with not_contacted := sc.not_contacted + 1 }
  | .contacted => { sc with contacted := sc.contacted + 1 }
  | .responded => { sc with responded := sc.responded + 1 }

/-- `company_counts[name] = company_counts.get(name, 0) + 1` on an
insertion-ordered association list (Python dicts preserve insertion
order, so a new company is appended at the end). -/
def bumpCompany : List (String × Nat) → String → List (String × Nat)
  | [], name => [(name, 1)]
  | (c, n) :: rest, name =>
    if c = name then (c, n + 1) :: rest else (c, n) :: bumpCompany rest name

/-- One insertion step of Python's stable descending sort by count
(`sorted(..., key=lambda x: x[1], reverse=True)`): a later element goes
after every earlier element whose count is greater than or equal. -/
def insertDesc (x : String × Nat) : List (String × Nat) → List (String × Nat)
  | [] => [x]
  | y :: ys => if x.2 ≤ y.2 then y :: insertDesc x ys else x :: y :: ys

/-- Stable sort by count, descending. -/
def sortDesc (l : List (String × Nat)) : List (String × Nat) :=
  l.foldl (fun acc x => insertDesc x acc) []

/-- The dictionary returned by `get_stats`. -/
structure Stats where
  total : Nat
  by_status : StatusCounts
  top_companies : List (String × Nat)
deriving DecidableEq, Repr

/-- `get_stats` (database.py lines 355–394): count by status and by
company in one pass, then report the total, the status breakdown, and the
five companies with the highest counts. -/
def get_stats (leads : List Lead) : Stats :=
  let status_counts := leads.foldl (fun sc l => bumpStatus sc l.status) ⟨0, 0, 0⟩
  let company_counts := leads.foldl (fun cc l => bumpCompany cc l.company_name) []
  let top_companies := (sortDesc company_counts).take 5
  { total := leads.length, by_status := status_counts,
    top_companies := top_companies }

theorem bumpStatus_sum (sc : StatusCounts) (s : LeadStatus) :
    (bumpStatus sc s).not_contacted + (bumpStatus sc s).contacted +
      (bumpStatus sc s).responded =
    sc.not_contacted + sc.contacted + sc.responded + 1 := by
  cases s <;> simp [bumpStatus] <;> omega

theorem foldl_bumpStatus_sum (leads : List Lead) :
    ∀ sc : StatusCounts,
      (leads.foldl (fun sc l => bumpStatus sc l.status) sc).not_contacted +
      (leads.foldl (fun sc l => bumpStatus sc l.status) sc).contacted +
      (leads.foldl (fun sc l => bumpStatus sc l.status) sc).responded =
      sc.not_contacted + sc.contacted + sc.responded + leads.length := by
  induction leads with
  | nil => intro sc; simp
  | cons l ls ih =>
    intro sc
    rw [List.foldl_cons, ih (bumpStatus sc l.status), bumpStatus_sum]
    simp only [List.length_cons]
    omega

/-- The insertion-ordered keys of the company-count dict. -/
def keys (cc : List (String × Nat)) : List String :=
  cc.map Prod.fst

/-- The keys of `names` that are not in `seen`, in order of first
appearance. -/
def newFirsts (seen : List String) : List String → List String
  | [] => []
  | x :: xs => if x ∈ seen then newFirsts seen xs else x :: newFirsts (x :: seen) xs

theorem newFirsts_congr {seen₁ seen₂ : List String}
    (h : ∀ a, a ∈ seen₁ ↔ a ∈ seen₂) :
    ∀ l, newFirsts seen₁ l = newFirsts seen₂ l := by
  intro l
  induction l generalizing seen₁ seen₂ with
  | nil => rfl
  | cons x xs ih =>
    unfold newFirsts
    by_cases hx : x ∈ seen₁
    · rw [if_pos hx, if_pos ((h x).mp hx)]
      exact ih h
    · rw [if_neg hx, if_neg (fun hc => hx ((h x).mpr hc))]
      have htail : newFirsts (x :: seen₁) xs = newFirsts (x :: seen₂) xs :=
        ih (fun a => by simp [List.mem_cons, h a])
      rw [htail]

theorem mem_newFirsts {a : String} :
    ∀ {l seen : List String}, a ∈ newFirsts seen l → a ∉ seen ∧ a ∈ l := by
  intro l
  induction l with
  | nil => intro seen h; simp [newFirsts] at h
  | cons x xs ih =>
    intro seen h
    unfold newFirsts at h
    by_cases hx : x ∈ seen
    · rw [if_pos hx] at h
      obtain ⟨h1, h2⟩ := ih h
      exact ⟨h1, List.mem_cons_of_mem x h2⟩
    · rw [if_neg hx] at h
      rcases List.mem_cons.mp h with rfl | h'
      · exact ⟨hx, List.mem_cons_self a xs⟩
      · obtain ⟨h1, h2⟩ := ih h'
        rw [List.mem_cons] at h1
        push_neg at h1
        exact ⟨h1.2, List.mem_cons_of_mem x h2⟩

theorem keys_cons (c : String) (n : Nat) (rest : List (String × Nat)) :
    keys ((c, n) :: rest) = c :: keys rest := rfl

theorem keys_bumpCompany (cc : List (String × Nat)) (name : String) :
    keys (bumpCompany cc name) =
      if name ∈ keys cc then keys cc else keys cc ++ [name] := by
  induction cc with
  | nil => simp [bumpCompany, keys]
  | cons p rest ih =>
    obtain ⟨c, n⟩ := p
    by_cases hc : c = name
    · subst hc
      rw [if_pos (by rw [keys_cons]; exact List.mem_cons_self c (keys rest))]
      simp [bumpCompany, keys]
    · have hbump : bumpCompany ((c, n) :: rest) name =
          (c, n) :: bumpCompany rest name := by
        simp [bumpCompany, hc]
      rw [hbump, keys_cons, ih, keys_cons]
      by_cases hr : name ∈ keys rest
      · rw [if_pos hr, if_pos (by rw [List.mem_cons]; exact Or.inr hr)]
      · rw [if_neg hr, if_neg ?hno]
        · rfl
        case hno =>
          rw [List.mem_cons]
          rintro (rfl | hmem)
          · exact hc rfl
          · exact hr hmem

theorem keys_foldl_bumpCompany :
    ∀ (names : List String) (cc : List (String × Nat)),
      keys (names.foldl bumpCompany cc) = keys cc ++ newFirsts (keys cc) names := by
  intro names
  induction names with
  | nil => intro cc; simp [newFirsts]
  | cons x xs ih =>
    intro cc
    rw [List.foldl_cons, ih (bumpCompany cc x)]
    simp only [newFirsts]
    by_cases hx : x ∈ keys cc
    · rw [keys_bumpCompany, if_pos hx, if_pos hx]
    · rw [keys_bumpCompany, if_neg hx, if_neg hx]
      have hcongr : newFirsts (keys cc ++ [x]) xs = newFirsts (x :: keys cc) xs :=
        newFirsts_congr (fun a => by simp [List.mem_append, List.mem_cons, or_comm]) xs
      rw [hcongr]
      simp

/-- `company_counts.get(c, 0)` on the association list. -/
def lookupCount : List (String × Nat) → String → Nat
  | [], _ => 0
  | (a, n) :: rest, c => if a = c then n else lookupCount rest c

theorem lookupCount_bumpCompany (cc : List (String × Nat)) (name c : String) :
    lookupCount (bumpCompany cc name) c =
      lookupCount cc c + (if name = c then 1 else 0) := by
  induction cc with
  | nil =>
    by_cases h : name = c <;> simp [bumpCompany, lookupCount, h]
  | cons p rest ih =>
    obtain ⟨a, n⟩ := p
    by_cases ha : a = name
    · subst ha
      by_cases hac : a = c <;> simp [bumpCompany, lookupCount, hac]
    · have hbump : bumpCompany ((a, n) :: rest) name =
          (a, n) :: bumpCompany rest name := by
        simp [bumpCompany, ha]
      rw [hbump]
      by_cases hac : a = c
      · subst hac
        have hnc : ¬ name = a := fun hcon => ha hcon.symm
        simp [lookupCount, hnc]
      · simp [lookupCount, hac, ih]

theorem lookupCount_foldl_bumpCompany :
    ∀ (names : List String) (cc : List (String × Nat)) (c : String),
      lookupCount (names.foldl bumpCompany cc) c =
        lookupCount cc c + names.count c := by
  intro names
  induction names with
  | nil => intro cc c; simp
  | cons x xs ih =>
    intro cc c
    rw [List.foldl_cons, ih (bumpCompany cc x) c, lookupCount_bumpCompany]
    by_cases hxc : x = c
    · subst hxc
      simp [List.count_cons]
      omega
    · have : ¬ (c == x) = true := by simpa using fun hcon => hxc hcon.symm
      simp [List.count_cons, hxc, this]

theorem lookupCount_of_mem {cc : List (String × Nat)} (hnd : (keys cc).Nodup)
    {c : String} {n : Nat} (hmem : (c, n) ∈ cc) : lookupCount cc c = n := by
  induction cc with
  | nil => simp at hmem
  | cons p rest ih =>
    obtain ⟨a, m⟩ := p
    rw [keys_cons, List.nodup_cons] at hnd
    rcases List.mem_cons.mp hmem with heq | hmem'
    · obtain ⟨rfl, rfl⟩ := Prod.mk.injEq .. ▸ heq
      simp [lookupCount]
    · have hac : ¬ a = c := by
        intro hcon
        subst hcon
        exact hnd.1 (List.mem_map.mpr ⟨(a, n), hmem', rfl⟩)
      simp [lookupCount, hac, ih hnd.2 hmem']

/-- The index of the first lead bearing a given company name. -/
def firstIdx (names : List String) (c : String) : Nat :=
  names.findIdx (fun x => x = c)

theorem firstIdx_cons_self (x : String) (xs : List String) :
    firstIdx (x :: xs) x = 0 := by
  simp [firstIdx, List.findIdx_cons]

theorem firstIdx_cons_ne (x : String) (xs : List String) {c : String} (h : c ≠ x) :
    firstIdx (x :: xs) c = firstIdx xs c + 1 := by
  have hx : ¬ x = c := fun hcon => h hcon.symm
  simp [firstIdx, List.findIdx_cons, hx]

theorem newFirsts_pairwise_firstIdx :
    ∀ (l seen : List String),
      (newFirsts seen l).Pairwise (fun c d => firstIdx l c < firstIdx l d) := by
  intro l
  induction l with
  | nil => intro seen; simp [newFirsts]
  | cons x xs ih =>
    intro seen
    unfold newFirsts
    by_cases hx : x ∈ seen
    · rw [if_pos hx]
      apply (ih seen).imp_of_mem
      intro a b ha hb hlt
      have hax : a ≠ x := by
        intro hcon
        subst hcon
        exact (mem_newFirsts ha).1 hx
      have hbx : b ≠ x := by
        intro hcon
        subst hcon
        exact (mem_newFirsts hb).1 hx
      rw [firstIdx_cons_ne x xs hax, firstIdx_cons_ne x xs hbx]
      omega
    · rw [if_neg hx]
      rw [List.pairwise_cons]
      constructor
      · intro d hd
        have hdx : d ≠ x := by
          intro hcon
          subst hcon
          exact (mem_newFirsts hd).1 (List.mem_cons_self d seen)
        rw [firstIdx_cons_self, firstIdx_cons_ne x xs hdx]
        omega
      · apply (ih (x :: seen)).imp_of_mem
        intro a b ha hb hlt
        have hax : a ≠ x := by
          intro hcon
          subst hcon
          exact (mem_newFirsts ha).1 (List.mem_cons_self a seen)
        have hbx : b ≠ x := by
          intro hcon
          subst hcon
          exact (mem_newFirsts hb).1 (List.mem_cons_self b seen)
        rw [firstIdx_cons_ne x xs hax, firstIdx_cons_ne x xs hbx]
        omega

theorem mem_insertDesc {a x : String × Nat} :
    ∀ {l : List (String × Nat)}, a ∈ insertDesc x l ↔ a = x ∨ a ∈ l := by
  intro l
  induction l with
  | nil => simp [insertDesc]
  | cons y ys ih =>
    unfold insertDesc
    by_cases h : x.2 ≤ y.2
    · rw [if_pos h]
      rw [List.mem_cons, ih, List.mem_cons]
      tauto
    · rw [if_neg h]
      simp [List.mem_cons]

/-- Inserting a later element into a sorted prefix keeps the output sorted
by descending count with ties in input order: the new element goes after
every equal-count element already present. -/
theorem pairwise_insertDesc {P : String × Nat → String × Nat → Prop}
    {x : String × Nat} {l : List (String × Nat)}
    (hl : l.Pairwise (fun a b => b.2 < a.2 ∨ (a.2 = b.2 ∧ P a b)))
    (hx : ∀ y ∈ l, y.2 = x.2 → P y x) :
    (insertDesc x l).Pairwise
      (fun a b => b.2 < a.2 ∨ (a.2 = b.2 ∧ P a b)) := by
  induction l with
  | nil => simp [insertDesc]
  | cons y ys ih =>
    rw [List.pairwise_cons] at hl
    unfold insertDesc
    by_cases h : x.2 ≤ y.2
    · rw [if_pos h]
      rw [List.pairwise_cons]
      constructor
      · intro z hz
        rcases mem_insertDesc.mp hz with rfl | hz'
        · rcases Nat.lt_or_ge z.2 y.2 with hlt | hge
          · exact Or.inl hlt
          · have heq : y.2 = z.2 := Nat.le_antisymm hge h
            exact Or.inr ⟨heq, hx y (List.mem_cons_self y ys) heq⟩
        · exact hl.1 z hz'
      · exact ih hl.2 (fun z hz hze => hx z (List.mem_cons_of_mem y hz) hze)
    · rw [if_neg h]
      rw [List.pairwise_cons]
      constructor
      · intro z hz
        rcases List.mem_cons.mp hz with rfl | hz'
        · exact Or.inl (Nat.lt_of_not_le h)
        · rcases hl.1 z hz' with hlt | ⟨heq, _⟩
          · exact Or.inl (Nat.lt_trans hlt (Nat.lt_of_not_le h))
          · exact Or.inl (heq ▸ Nat.lt_of_not_le h)
      · rw [List.pairwise_cons]
        exact ⟨hl.1, hl.2⟩

theorem mem_foldl_insertDesc {a : String × Nat} :
    ∀ (l acc : List (String × Nat)),
      a ∈ l.foldl (fun acc x => insertDesc x acc) acc ↔ a ∈ acc ∨ a ∈ l := by
  intro l
  induction l with
  | nil => intro acc; simp
  | cons x xs ih =>
    intro acc
    rw [List.foldl_cons, ih (insertDesc x acc)]
    rw [mem_insertDesc, List.mem_cons]
    tauto

theorem pairwise_foldl_insertDesc {P : String × Nat → String × Nat → Prop} :
    ∀ (l acc : List (String × Nat)),
      acc.Pairwise (fun a b => b.2 < a.2 ∨ (a.2 = b.2 ∧ P a b)) →
      (∀ y ∈ acc, ∀ z ∈ l, y.2 = z.2 → P y z) →
      l.Pairwise (fun a b => a.2 = b.2 → P a b) →
      (l.foldl (fun acc x => insertDesc x acc) acc).Pairwise
        (fun a b => b.2 < a.2 ∨ (a.2 = b.2 ∧ P a b)) := by
  intro l
  induction l with
  | nil => intro acc hacc _ _; simpa using hacc
  | cons x xs ih =>
    intro acc hacc hcross hl
    rw [List.pairwise_cons] at hl
    rw [List.foldl_cons]
    apply ih (insertDesc x acc)
    · exact pairwise_insertDesc hacc
        (fun y hy hye => hcross y hy x (List.mem_cons_self x xs) hye)
    · intro y hy z hz hyz
      rcases mem_insertDesc.mp hy with rfl | hy'
      · exact hl.1 z hz hyz
      · exact hcross y hy' z (List.mem_cons_of_mem x hz) hyz
    · exact hl.2

theorem sortDesc_pairwise {P : String × Nat → String × Nat → Prop}
    {l : List (String × Nat)}
    (hl : l.Pairwise (fun a b => a.2 = b.2 → P a b)) :
    (sortDesc l).Pairwise (fun a b => b.2 < a.2 ∨ (a.2 = b.2 ∧ P a b)) :=
  pairwise_foldl_insertDesc l [] (List.Pairwise.nil) (by simp) hl

theorem mem_sortDesc {a : String × Nat} {l : List (String × Nat)} :
    a ∈ sortDesc l ↔ a ∈ l := by
  rw [sortDesc, mem_foldl_insertDesc]
  simp

/-- C7 (confirmed): `get_stats` reports the collection size as `total`, a
status breakdown whose three counts sum to the total, and at most five
`(company, count)` pairs holding the companies' true occurrence counts,
sorted by count descending with ties broken by the order in which each
company first appears in the collection; on the empty collection every
count is zero and the top-companies list is empty. -/
theorem get_stats_spec (leads : List Lead) :
    (get_stats leads).total = leads.length ∧
    (get_stats leads).by_status.not_contacted +
      (get_stats leads).by_status.contacted +
      (get_stats leads).by_status.responded = leads.length ∧
    (get_stats leads).top_companies.length ≤ 5 ∧
    (get_stats leads).top_companies.Pairwise (fun a b =>
      b.2 < a.2 ∨ (a.2 = b.2 ∧
        firstIdx (leads.map (fun l => l.company_name)) a.1 <
          firstIdx (leads.map (fun l => l.company_name)) b.1)) ∧
    (∀ p ∈ (get_stats leads).top_companies,
      p.2 = (leads.map (fun l => l.company_name)).count p.1 ∧
      p.1 ∈ leads.map (fun l => l.company_name)) ∧
    get_stats ([] : List Lead) = ⟨0, ⟨0, 0, 0⟩, []⟩ := by
  have hfold : leads.foldl (fun cc l => bumpCompany cc l.company_name) [] =
      (leads.map (fun l => l.company_name)).foldl bumpCompany [] := by
    rw [List.foldl_map]
  have hkeys : keys ((leads.map (fun l => l.company_name)).foldl bumpCompany []) =
      newFirsts [] (leads.map (fun l => l.company_name)) := by
    rw [keys_foldl_bumpCompany]
    rfl
  have hpwk := newFirsts_pairwise_firstIdx (leads.map (fun l => l.company_name)) []
  have hpw : ((leads.map (fun l => l.company_name)).foldl bumpCompany []).Pairwise
      (fun a b => a.2 = b.2 →
        firstIdx (leads.map (fun l => l.company_name)) a.1 <
          firstIdx (leads.map (fun l => l.company_name)) b.1) := by
    have h1 := hpwk
    rw [← hkeys] at h1
    unfold keys at h1
    exact (List.pairwise_map.mp h1).imp (fun h => fun _ => h)
  have hnd : (keys ((leads.map (fun l => l.company_name)).foldl
      bumpCompany [])).Nodup := by
    rw [hkeys]
    exact hpwk.imp (fun hlt heq => absurd (heq ▸ hlt) (Nat.lt_irrefl _))
  refine ⟨rfl, ?_, ?_, ?_, ?_, rfl⟩
  · have h := foldl_bumpStatus_sum leads ⟨0, 0, 0⟩
    simpa [get_stats] using h
  · simp only [get_stats]
    rw [List.length_take]
    exact min_le_left 5 _
  · simp only [get_stats]
    rw [hfold]
    exact (sortDesc_pairwise hpw).sublist (List.take_sublist 5 _)
  · intro p hp
    simp only [get_stats] at hp
    rw [hfold] at hp
    have hp1 : p ∈ sortDesc ((leads.map (fun l => l.company_name)).foldl
        bumpCompany []) := List.mem_of_mem_take hp
    have hp2 : p ∈ (leads.map (fun l => l.company_name)).foldl bumpCompany [] :=
      mem_sortDesc.mp hp1
    constructor
    · have hpe : ((p.1, p.2) : String × Nat) ∈
          (leads.map (fun l => l.company_name)).foldl bumpCompany [] := by
        rwa [Prod.mk.eta]
      have hval := lookupCount_of_mem hnd hpe
      have hcount := lookupCount_foldl_bumpCompany
        (leads.map (fun l => l.company_name)) [] p.1
      rw [← hval, hcount]
      simp [lookupCount]
    · have hk : p.1 ∈ keys ((leads.map (fun l => l.company_name)).foldl
          bumpCompany []) := List.mem_map_of_mem Prod.fst hp2
      rw [hkeys] at hk
      exact (mem_newFirsts hk).2

set_option maxRecDepth 8000 in
/-- Witness for C7: on a three-lead collection with companies
Acme, Globex, Acme the stats report total 3 and carry the pair
`("Acme", 2)` with the true count. -/
theorem get_stats_spec_witness :
    (get_stats [cexLead, frameLeadB, tagLead]).total =
      ([cexLead, frameLeadB, tagLead] : List Lead).length ∧
    ((("Acme", 2) : String × Nat).2 =
        (([cexLead, frameLeadB, tagLead] : List Lead).map
          (fun l => l.company_name)).count ("Acme", 2).1 ∧
      (("Acme", 2) : String × Nat).1 ∈
        ([cexLead, frameLeadB, tagLead] : List Lead).map
          (fun l => l.company_name)) := by
  have h := get_stats_spec [cexLead, frameLeadB, tagLead]
  exact ⟨h.1, h.2.2.2.2.1 ("Acme", 2) (by decide)⟩

/-! ### C8: persistence round-trip -/

/-- The `w` zero-padded decimal digits of `n`, most significant first, as
printed by `datetime.isoformat`'s fixed-width fields. -/
def natDigits : Nat → Nat → List Char
  | 0, _ => []
  | w + 1, n => (Nat.digitChar (n / 10 ^ w)) :: natDigits w (n % 10 ^ w)

/-- Read exactly `w` decimal digits, most significant first, as
`datetime.fromisoformat` does for each fixed-width field. -/
def readDigits (acc : Nat) : Nat → List Char → Option (Nat × List Char)
  | 0, cs => some (acc, cs)
  | _ + 1, [] => none
  | w + 1, c :: cs =>
    if c.isDigit then readDigits (acc * 10 + (c.toNat - 48)) w cs else none

theorem digitChar_isDigit {d : Nat} (h : d < 10) :
    (Nat.digitChar d).isDigit = true := by
  interval_cases d <;> decide

theorem digitChar_toNat {d : Nat} (h : d < 10) :
    (Nat.digitChar d).toNat - 48 = d := by
  interval_cases d <;> decide

theorem readDigits_natDigits :
    ∀ (w n acc : Nat), n < 10 ^ w → ∀ (rest : List Char),
      readDigits acc w (natDigits w n ++ rest) =
        some (acc * 10 ^ w + n, rest) := by
  intro w
  induction w with
  | zero =>
    intro n acc h rest
    have hn : n = 0 := by omega
    subst hn
    simp [natDigits, readDigits]
  | succ w ih =>
    intro n acc h rest
    have hd : n / 10 ^ w < 10 := by
      apply Nat.div_lt_of_lt_mul
      rw [← Nat.pow_succ]
      exact h
    have hm : n % 10 ^ w < 10 ^ w := Nat.mod_lt _ (Nat.pow_pos (by omega))
    rw [natDigits, List.cons_append, readDigits]
    rw [if_pos (digitChar_isDigit hd), digitChar_toNat hd]
    rw [ih (n % 10 ^ w) (acc * 10 + n / 10 ^ w) hm rest]
    have key : (acc * 10 + n / 10 ^ w) * 10 ^ w + n % 10 ^ w =
        acc * 10 ^ (w + 1) + n := by
      have hdm : 10 ^ w * (n / 10 ^ w) + n % 10 ^ w = n := Nat.div_add_mod n (10 ^ w)
      calc (acc * 10 + n / 10 ^ w) * 10 ^ w + n % 10 ^ w
          = acc * (10 ^ w * 10) + (10 ^ w * (n / 10 ^ w) + n % 10 ^ w) := by ring
        _ = acc * 10 ^ (w + 1) + n := by rw [hdm, Nat.pow_succ]
    rw [key]

theorem readDigits_natDigits_nil (w n acc : Nat) (h : n < 10 ^ w) :
    readDigits acc w (natDigits w n) = some (acc * 10 ^ w + n, []) := by
  rw [← List.append_nil (natDigits w n)]
  exact readDigits_natDigits w n acc h []

/-- `datetime.isoformat()`: `YYYY-MM-DDTHH:MM:SS`, with `.ffffff` appended
only when the microsecond field is non-zero. -/
def DateTime.isoChars (dt : DateTime) : List Char :=
  natDigits 4 dt.year ++ '-' ::
  (natDigits 2 dt.month ++ '-' ::
  (natDigits 2 dt.day ++ 'T' ::
  (natDigits 2 dt.hour ++ ':' ::
  (natDigits 2 dt.minute ++ ':' ::
  (natDigits 2 dt.second ++
    (if dt.microsecond = 0 then []
     else '.' :: natDigits 6 dt.microsecond))))))

/-- `datetime.isoformat()` as a string. -/
def DateTime.isoformat (dt : DateTime) : String :=
  String.mk dt.isoChars

/-- Consume one expected separator character. -/
def expectChar (c : Char) : List Char → Option (List Char)
  | [] => none
  | x :: xs => if x = c then some xs else none

/-- `datetime.fromisoformat` on the formats `isoformat` emits: the six
dash/colon-separated fixed-width fields, then an optional `.ffffff`. -/
def parseDTChars (cs : List Char) : Option DateTime :=
  (readDigits 0 4 cs).bind fun py =>
  (expectChar '-' py.2).bind fun cs1 =>
  (readDigits 0 2 cs1).bind fun pmo =>
  (expectChar '-' pmo.2).bind fun cs2 =>
  (readDigits 0 2 cs2).bind fun pd =>
  (expectChar 'T' pd.2).bind fun cs3 =>
  (readDigits 0 2 cs3).bind fun ph =>
  (expectChar ':' ph.2).bind fun cs4 =>
  (readDigits 0 2 cs4).bind fun pmi =>
  (expectChar ':' pmi.2).bind fun cs5 =>
  (readDigits 0 2 cs5).bind fun ps =>
  match ps.2 with
  | [] => some ⟨py.1, pmo.1, pd.1, ph.1, pmi.1, ps.1, 0⟩
  | '.' :: cs6 =>
    (readDigits 0 6 cs6).bind fun pus =>
    (match pus.2 with
     | [] => some ⟨py.1, pmo.1, pd.1, ph.1, pmi.1, ps.1, pus.1⟩
     | _ => none)
  | _ => none

/-- `datetime.fromisoformat` on a string. -/
def DateTime.fromisoformat (s : String) : Option DateTime :=
  parseDTChars s.data

theorem expectChar_cons (c : Char) (cs : List Char) :
    expectChar c (c :: cs) = some cs := by
  simp [expectChar]

set_option maxHeartbeats 1000000 in
theorem fromisoformat_isoformat (dt : DateTime) (h : dt.Valid) :
    DateTime.fromisoformat (DateTime.isoformat dt) = some dt := by
  obtain ⟨h1, h2, h3, h4, h5, h6, h7, h8, h9, h10⟩ := h
  have hy : dt.year < 10 ^ 4 := by norm_num; omega
  have hmo : dt.month < 10 ^ 2 := by norm_num; omega
  have hd : dt.day < 10 ^ 2 := by norm_num; omega
  have hh : dt.hour < 10 ^ 2 := by norm_num; omega
  have hmi : dt.minute < 10 ^ 2 := by norm_num; omega
  have hs : dt.second < 10 ^ 2 := by norm_num; omega
  have hus : dt.microsecond < 10 ^ 6 := by norm_num; omega
  unfold DateTime.isoformat DateTime.fromisoformat DateTime.isoChars
  by_cases h0 : dt.microsecond = 0
  · rw [if_pos h0]
    show parseDTChars _ = _
    unfold parseDTChars
    rw [readDigits_natDigits 4 dt.year 0 hy]
    simp only [Option.bind_eq_bind, Option.some_bind, expectChar_cons,
      readDigits_natDigits 2 dt.month 0 hmo,
      readDigits_natDigits 2 dt.day 0 hd,
      readDigits_natDigits 2 dt.hour 0 hh,
      readDigits_natDigits 2 dt.minute 0 hmi,
      readDigits_natDigits 2 dt.second 0 hs,
      Nat.zero_mul, Nat.zero_add]
    rw [← h0]
  · rw [if_neg h0]
    show parseDTChars _ = _
    unfold parseDTChars
    rw [readDigits_natDigits 4 dt.year 0 hy]
    simp only [Option.bind_eq_bind, Option.some_bind, expectChar_cons,
      readDigits_natDigits 2 dt.month 0 hmo,
      readDigits_natDigits 2 dt.day 0 hd,
      readDigits_natDigits 2 dt.hour 0 hh,
      readDigits_natDigits 2 dt.minute 0 hmi,
      readDigits_natDigits 2 dt.second 0 hs,
      readDigits_natDigits_nil 6 dt.microsecond 0 hus,
      Nat.zero_mul, Nat.zero_add]

/-- One serialized activity, as written into `leads.json` by `save_leads`
(`model_dump` plus an ISO timestamp string). -/
structure ActivityDoc where
  timestamp : String
  type : String
  description : String
  details : Option String
deriving DecidableEq, Repr

/-- One serialized lead, as written into `leads.json` by `save_leads`:
all scalar fields dumped, enum values as their strings, timestamps as ISO
strings (`last_contacted` null when absent), activities nested. -/
structure LeadDoc where
  company_name : String
  contact_name : String
  title : String
  email : String
  linkedin_url : String
  status : String
  notes : String
  tags : List String
  id : String
  date_added : String
  last_contacted : Option String
  activity_history : List ActivityDoc
deriving DecidableEq, Repr

/-- Pydantic's parsing of an `ActivityType` value string on load. -/
def parseActivityType (s : String) : Option ActivityType :=
  if s = "created" then some .created
  else if s = "updated" then some .updated
  else if s = "status_changed" then some .status_changed
  else if s = "note_added" then some .note_added
  else if s = "tag_added" then some .tag_added
  else if s = "tag_removed" then some .tag_removed
  else none

/-- Pydantic's parsing of a `LeadStatus` value string on load. -/
def parseLeadStatus (s : String) : Option LeadStatus :=
  if s = "not_contacted" then some .not_contacted
  else if s = "contacted" then some .contacted
  else if s = "responded" then some .responded
  else none

theorem parseActivityType_value (t : ActivityType) :
    parseActivityType (activityTypeValue t) = some t := by
  cases t <;> rfl

theorem parseLeadStatus_value (s : LeadStatus) :
    parseLeadStatus (statusValue s) = some s := by
  cases s <;> rfl

/-- Serialization of one activity (`save_leads`, database.py lines 99–105). -/
def Activity.toDoc (a : Activity) : ActivityDoc :=
  ⟨a.timestamp.isoformat, activityTypeValue a.type, a.description, a.details⟩

/-- Parsing of one activity (`load_leads`, database.py lines 66–72). -/
def ActivityDoc.parse (d : ActivityDoc) : Option Activity :=
  (DateTime.fromisoformat d.timestamp).bind fun ts =>
  (parseActivityType d.type).bind fun ty =>
  some ⟨ts, ty, d.description, d.details⟩

/-- Serialization of one lead (`save_leads`, database.py lines 93–108). -/
def Lead.toDoc (l : Lead) : LeadDoc :=
  ⟨l.company_name, l.contact_name, l.title, l.email, l.linkedin_url,
   statusValue l.status, l.notes, l.tags, l.id, l.date_added.isoformat,
   l.last_contacted.map DateTime.isoformat,
   l.activity_history.map Activity.toDoc⟩

/-- The activity-parsing loop of `load_leads` (database.py lines 64–73);
any failing entry fails the whole load, as the raised exception would. -/
def parseActivities : List ActivityDoc → Option (List Activity)
  | [] => some []
  | d :: ds =>
    (d.parse).bind fun a =>
    (parseActivities ds).bind fun rest =>
    some (a :: rest)

/-- Parsing of one lead (`load_leads`, database.py lines 53–75): ISO
timestamps back to datetimes (a null `last_contacted` stays null), the
nested activities parsed, enum values parsed. -/
def LeadDoc.parse (d : LeadDoc) : Option Lead :=
  (DateTime.fromisoformat d.date_added).bind fun da =>
  (match d.last_contacted with
    | none => some none
    | some s => (DateTime.fromisoformat s).bind fun lc => some (some lc)).bind fun lc =>
  (parseActivities d.activity_history).bind fun acts =>
  (parseLeadStatus d.status).bind fun st =>
  some { company_name := d.company_name, contact_name := d.contact_name,
         title := d.title, email := d.email, linkedin_url := d.linkedin_url,
         status := st, notes := d.notes, tags := d.tags, id := d.id,
         date_added := da, last_contacted := lc, activity_history := acts }

/-- `save_leads` (database.py lines 80–120), at the granularity of the
JSON document it writes: the serialized collection. -/
def save_leads (leads : List Lead) : List LeadDoc :=
  leads.map Lead.toDoc

/-- `load_leads` (database.py lines 36–77): parse every stored record,
failing if any record does. -/
def load_leads : List LeadDoc → Option (List Lead)
  | [] => some []
  | d :: ds =>
    (d.parse).bind fun l =>
    (load_leads ds).bind fun rest =>
    some (l :: rest)

/-- Validity of the optional `last_contacted` timestamp. -/
def DateTime.ValidOpt : Option DateTime → Prop
  | none => True
  | some t => t.Valid

instance : ∀ o : Option DateTime, Decidable (DateTime.ValidOpt o)
  | none => isTrue trivial
  | some t => inferInstanceAs (Decidable t.Valid)

/-- A lead whose timestamps all carry `datetime`-representable fields. -/
def Lead.Valid (l : Lead) : Prop :=
  l.date_added.Valid ∧ DateTime.ValidOpt l.last_contacted ∧
  ∀ a ∈ l.activity_history, a.timestamp.Valid

instance (l : Lead) : Decidable l.Valid := by
  unfold Lead.Valid; infer_instance

theorem activity_roundtrip (a : Activity) (h : a.timestamp.Valid) :
    (Activity.toDoc a).parse = some a := by
  obtain ⟨ts, ty, de, dl⟩ := a
  simp only [Activity.toDoc, ActivityDoc.parse]
  rw [fromisoformat_isoformat ts h, parseActivityType_value]
  rfl

theorem parseActivities_roundtrip (acts : List Activity)
    (h : ∀ a ∈ acts, a.timestamp.Valid) :
    parseActivities (acts.map Activity.toDoc) = some acts := by
  induction acts with
  | nil => rfl
  | cons a as ih =>
    rw [List.map_cons]
    simp only [parseActivities]
    rw [activity_roundtrip a (h a (List.mem_cons_self a as)),
      ih (fun b hb => h b (List.mem_cons_of_mem a hb))]
    rfl

theorem lead_roundtrip (l : Lead) (h : l.Valid) : (Lead.toDoc l).parse = some l := by
  obtain ⟨h1, h2, h3⟩ := h
  obtain ⟨⟨cn, ctn, ti, em, lu, st, no, tg⟩, id, da, lc, ah⟩ := l
  simp only [Lead.toDoc, LeadDoc.parse] at h1 h2 h3 ⊢
  rw [fromisoformat_isoformat da h1, parseActivities_roundtrip ah h3,
    parseLeadStatus_value st]
  cases lc with
  | none => rfl
  | some t => simp [fromisoformat_isoformat t h2]

/-- C8 (confirmed): saving a collection of leads and loading it back
yields the original collection, field for field, nested activities and
all timestamps included. -/
theorem save_load_roundtrip (leads : List Lead) (h : ∀ l ∈ leads, l.Valid) :
    load_leads (save_leads leads) = some leads := by
  induction leads with
  | nil => rfl
  | cons l ls ih =>
    simp only [save_leads, List.map_cons, load_leads]
    rw [lead_roundtrip l (h l (List.mem_cons_self l ls))]
    have hrest := ih (fun x hx => h x (List.mem_cons_of_mem l hx))
    simp only [save_leads] at hrest
    rw [hrest]
    rfl

set_option maxRecDepth 8000 in
/-- Witness for C8: a concrete one-lead collection survives the
save/load round-trip unchanged. -/
theorem save_load_roundtrip_witness :
    load_leads (save_leads [cexLead]) = some [cexLead] :=
  save_load_roundtrip [cexLead] (by decide)
